import Mathlib

/-!
Verification of the luxe snow-globe scene against its specification.

Two subsystems are embedded from the source:

* the look-ahead audio scheduler of `src/utils/audioUtils.ts`
  (note tables, scores, `scheduleNote`, the `treeScheduler` /
  `castleScheduler` drain loops, `toggleChristmasMusic`,
  `toggleDisneyMusic`), modelled over `ℚ` with the audio clock passed
  explicitly;
* the point-cloud render pipeline of the `CastleScene` component
  (morph stage, per-frame animation state update, depth sort,
  screen-space bounds accumulation, click hit-testing), also over `ℚ`.
-/

namespace Audio

/-- A score entry: `(pitch-or-rest, duration in beats)`,
embedding `type NoteEvent = [string | null, number]`. -/
abbrev NoteEvent := Option String × ℚ

/-- The pitch-name table `NOTES` (frequencies in Hz, exact decimals). -/
def NOTES : List (String × ℚ) :=
  [("C4", 26163/100), ("D4", 29366/100), ("E4", 32963/100), ("F4", 34923/100),
   ("G4", 392), ("A4", 440), ("B4", 49388/100),
   ("C5", 52325/100), ("D5", 58733/100), ("E5", 65925/100), ("F5", 69846/100),
   ("G5", 78399/100)]

/-- The `DISNEY_NOTES` table: `NOTES` extended/overridden with the
higher pitches (spread `...NOTES` then the four extra entries; lookup
of the later keys must see the overriding values, which for this table
agree with `NOTES` where both are present). -/
def DISNEY_NOTES : List (String × ℚ) :=
  [("C6", 104650/100), ("G5", 78399/100), ("A5", 880), ("F5", 69846/100)] ++ NOTES

/-- `NOTES[note] || 440`: table lookup with the 440 Hz fallback. -/
def noteFreq (tbl : List (String × ℚ)) (n : String) : ℚ :=
  match tbl.lookup n with
  | some f => f
  | none => 440

/-- The `JINGLE_BELLS` score. -/
def JINGLE_BELLS : List NoteEvent :=
  [(some "E5", 1), (some "E5", 1), (some "E5", 2), (some "E5", 1), (some "E5", 1),
   (some "E5", 2), (some "E5", 1), (some "G5", 1), (some "C5", 3/2), (some "D5", 1/2),
   (some "E5", 4)]

/-- The `DISNEY_THEME` score (note the rest `[null, 0.5]` at index 7). -/
def DISNEY_THEME : List NoteEvent :=
  [(some "C4", 1/4), (some "E4", 1/4), (some "G4", 1/4), (some "C5", 1/4),
   (some "E5", 1/4), (some "G5", 1/4), (some "C6", 1/2), (none, 1/2),
   (some "G5", 1), (some "E5", 1/2), (some "F5", 1/2), (some "G5", 2),
   (some "A5", 1/2), (some "G5", 1/2), (some "F5", 1/2), (some "E5", 1/2), (some "D5", 2),
   (some "E5", 1/2), (some "F5", 1/2), (some "G5", 1), (some "C5", 1),
   (some "A5", 3/2), (some "G5", 1/2), (some "C6", 2)]

def TEMPO : ℚ := 140

def SECONDS_PER_BEAT : ℚ := 60 / TEMPO

/-- Poll interval of the `setTimeout` chain (seconds). -/
def LOOKAHEAD : ℚ := 1/10

/-- Width of the scheduling window (seconds). -/
def SCHEDULE_AHEAD_TIME : ℚ := 1/10

/-- An oscillator voice created by `scheduleNote`: frequency, start and
auto-stop times on the audio clock, and waveform. -/
structure Osc where
  freq : ℚ
  tStart : ℚ
  tStop : ℚ
  wave : String
deriving DecidableEq, Repr

/-- Embedding of `scheduleNote(note, duration, time, type)`: the list of
oscillators it creates and starts.  A rest (`null` pitch) returns early
and creates none; `'bell'` creates one triangle oscillator, `'orchestra'`
a sine plus a triangle harmonic, each stopped at
`time + duration * SECONDS_PER_BEAT + 1`. -/
def scheduleNote (note : Option String) (duration time : ℚ) (type : String) :
    List Osc :=
  match note with
  | none => []
  | some n =>
    if type = "bell" then
      [⟨noteFreq NOTES n, time, time + duration * SECONDS_PER_BEAT + 1, "triangle"⟩]
    else
      [⟨noteFreq DISNEY_NOTES n, time, time + duration * SECONDS_PER_BEAT + 1, "sine"⟩,
       ⟨noteFreq DISNEY_NOTES n, time, time + duration * SECONDS_PER_BEAT + 1, "triangle"⟩]

/-- The mutable scheduler cursor: `nextNoteTime` and `scoreIndex`. -/
structure SchedState where
  nextNoteTime : ℚ
  scoreIndex : ℕ
deriving DecidableEq, Repr

/-- One iteration of the scheduler while-loop body: read the score entry
at `scoreIndex`, emit it at `nextNoteTime`, advance the cursor by
`duration * SECONDS_PER_BEAT` and the index by one modulo the score
length. -/
def schedStep (s : List NoteEvent) (st : SchedState) :
    SchedState × (NoteEvent × ℚ) :=
  let e := s.getD st.scoreIndex (none, 0)
  (⟨st.nextNoteTime + e.2 * SECONDS_PER_BEAT, (st.scoreIndex + 1) % s.length⟩,
   (e, st.nextNoteTime))

/-- The scheduler drain loop
`while (nextNoteTime < audioCtx.currentTime + SCHEDULE_AHEAD_TIME) ...`,
with explicit fuel; `c` is the audio clock at this tick.  Returns the
state after the loop and the `(event, startTime)` pairs scheduled. -/
def drainFuel (s : List NoteEvent) (c : ℚ) :
    ℕ → SchedState → SchedState × List (NoteEvent × ℚ)
  | 0, st => (st, [])
  | fuel + 1, st =>
    if st.nextNoteTime < c + SCHEDULE_AHEAD_TIME then
      let step := schedStep s st
      let rest := drainFuel s c fuel step.1
      (rest.1, step.2 :: rest.2)
    else (st, [])

/-- Fuel that provably suffices to drain the window when every step
advances the cursor by at least `d` seconds. -/
def fuelFor (d c x : ℚ) : ℕ :=
  (⌈(c + SCHEDULE_AHEAD_TIME - x) / d⌉).toNat

/-- A score together with the facts the drain loop relies on: it is
nonempty and every duration is at least the positive `minDur`. -/
structure Score where
  events : List NoteEvent
  minDur : ℚ
  ne : events ≠ []
  minDur_pos : 0 < minDur
  dur_ge : ∀ e ∈ events, minDur ≤ e.2

def JINGLE_SCORE : Score :=
  ⟨JINGLE_BELLS, 1/2, by simp [JINGLE_BELLS], by norm_num,
   by intro e he; fin_cases he <;> norm_num⟩

def DISNEY_SCORE : Score :=
  ⟨DISNEY_THEME, 1/4, by simp [DISNEY_THEME], by norm_num,
   by intro e he; fin_cases he <;> norm_num⟩

/-- One full timer tick of `treeScheduler` / `castleScheduler` at audio
clock `c`: drain the lookahead window completely. -/
def tick (S : Score) (c : ℚ) (st : SchedState) :
    SchedState × List (NoteEvent × ℚ) :=
  drainFuel S.events c (fuelFor (SECONDS_PER_BEAT * S.minDur) c st.nextNoteTime) st

/-- The cursor set by a fresh `toggle…Music(true)` at clock `t`:
`nextNoteTime = t + 0.1`, `scoreIndex = 0`. -/
def startState (t : ℚ) : SchedState := ⟨t + 1/10, 0⟩

/-- Run a sequence of timer ticks at the given audio-clock instants,
concatenating the scheduled events. -/
def runTicks (S : Score) : List ℚ → SchedState → SchedState × List (NoteEvent × ℚ)
  | [], st => (st, [])
  | c :: cs, st =>
    let r := tick S c st
    let r2 := runTicks S cs r.1
    (r2.1, r.2 ++ r2.2)

/-- Like `runTicks` but annotating every scheduled event with the audio
clock of the tick that emitted it. -/
def runTicksAnn (S : Score) : List ℚ → SchedState →
    SchedState × List (ℚ × (NoteEvent × ℚ))
  | [], st => (st, [])
  | c :: cs, st =>
    let r := tick S c st
    let r2 := runTicksAnn S cs r.1
    (r2.1, r.2.map (fun e => (c, e)) ++ r2.2)

/-- Cumulative duration (in beats) of the first `k` notes of the cyclic
reading of the score. -/
def cumDur (s : List NoteEvent) : ℕ → ℚ
  | 0 => 0
  | k + 1 => cumDur s k + (s.getD (k % s.length) (none, 0)).2

/-- The `k`-th event of the cyclic reading of the score. -/
def canonNote (s : List NoteEvent) (k : ℕ) : NoteEvent :=
  s.getD (k % s.length) (none, 0)

/-- The start time the scheduler assigns to the `k`-th note overall,
for initial cursor `t0`. -/
def canonTime (s : List NoteEvent) (t0 : ℚ) (k : ℕ) : ℚ :=
  t0 + SECONDS_PER_BEAT * cumDur s k

/-- The scheduler state after `n` notes have been scheduled from initial
cursor `t0`. -/
def canonState (s : List NoteEvent) (t0 : ℚ) (n : ℕ) : SchedState :=
  ⟨canonTime s t0 n, n % s.length⟩

/-- The canonical event trace: `k` consecutive events starting with
note number `n`. -/
def canonTrace (s : List NoteEvent) (t0 : ℚ) : ℕ → ℕ → List (NoteEvent × ℚ)
  | _, 0 => []
  | n, k + 1 => (canonNote s n, canonTime s t0 n) :: canonTrace s t0 (n + 1) k

/-- The module-level singleton state of `audioUtils.ts`: the two timer
handles (modelled as pending flags) and the shared cursor. -/
structure AudioState where
  musicScheduler : Bool
  castleMusicScheduler : Bool
  sched : SchedState
deriving DecidableEq, Repr

/-- A `setTimeout` tick of `treeScheduler` firing at clock `c`: only a
pending timer fires; the tick drains the window and re-registers
itself. -/
def tickChristmas (c : ℚ) (st : AudioState) :
    AudioState × List (NoteEvent × ℚ) :=
  if st.musicScheduler then
    let r := tick JINGLE_SCORE c st.sched
    (⟨true, st.castleMusicScheduler, r.1⟩, r.2)
  else (st, [])

/-- A `setTimeout` tick of `castleScheduler` firing at clock `c`. -/
def tickDisney (c : ℚ) (st : AudioState) :
    AudioState × List (NoteEvent × ℚ) :=
  if st.castleMusicScheduler then
    let r := tick DISNEY_SCORE c st.sched
    (⟨st.musicScheduler, true, r.1⟩, r.2)
  else (st, [])

/-- `toggleChristmasMusic(shouldPlay)` at audio clock `c`.  Starting is
guarded by BOTH timer handles being null; it resets the cursor to
`c + 0.1` and the index to 0, runs `treeScheduler` once synchronously
and leaves its timer pending.  Stopping clears only this melody's
timer. -/
def toggleChristmasMusic (shouldPlay : Bool) (c : ℚ) (st : AudioState) :
    AudioState × List (NoteEvent × ℚ) :=
  if shouldPlay then
    if !st.musicScheduler && !st.castleMusicScheduler then
      let r := tick JINGLE_SCORE c (startState c)
      (⟨true, st.castleMusicScheduler, r.1⟩, r.2)
    else (st, [])
  else
    if st.musicScheduler then (⟨false, st.castleMusicScheduler, st.sched⟩, [])
    else (st, [])

/-- `toggleDisneyMusic(shouldPlay)` at audio clock `c`. -/
def toggleDisneyMusic (shouldPlay : Bool) (c : ℚ) (st : AudioState) :
    AudioState × List (NoteEvent × ℚ) :=
  if shouldPlay then
    if !st.castleMusicScheduler && !st.musicScheduler then
      let r := tick DISNEY_SCORE c (startState c)
      (⟨st.musicScheduler, true, r.1⟩, r.2)
    else (st, [])
  else
    if st.castleMusicScheduler then (⟨st.musicScheduler, false, st.sched⟩, [])
    else (st, [])

/-- The mutual-exclusion invariant: at most one scheduler pending. -/
def Excl (st : AudioState) : Prop :=
  ¬(st.musicScheduler = true ∧ st.castleMusicScheduler = true)

end Audio

namespace Scene

/-- The semantic part tag of `Point3D.part` in `CastleScene`. -/
inductive Part where
  | body | door_left | door_right | wheel | light_front | light_rear
  | glass | balloon | string
deriving DecidableEq, Repr

/-- A 3-D position. -/
structure Vec3 where
  x : ℚ
  y : ℚ
  z : ℚ
deriving DecidableEq, Repr

/-- The morph stage of the render loop: glass points carry scale
`1 - morph`, balloon/string points carry scale `morph`; a point whose
scale falls below `0.05` is culled (`continue`), otherwise the three
morphing parts are linearly interpolated toward the fixed pivot
`(0, 50, 0)`; every other part passes through unchanged. -/
def morphStage (part : Part) (morph : ℚ) (p : Vec3) : Option Vec3 :=
  if part = Part.glass then
    let s := 1 - morph
    if s < 1/20 then none
    else some ⟨0 + (p.x - 0) * s, 50 + (p.y - 50) * s, 0 + (p.z - 0) * s⟩
  else if part = Part.balloon ∨ part = Part.string then
    let s := morph
    if s < 1/20 then none
    else some ⟨0 + (p.x - 0) * s, 50 + (p.y - 50) * s, 0 + (p.z - 0) * s⟩
  else some p

/-- The per-frame continuous animation state of `CastleScene`. -/
structure AnimState where
  time : ℚ
  hoverY : ℚ
  morphVal : ℚ
  targetLeftDoor : ℚ
  targetRightDoor : ℚ
  valLeftDoor : ℚ
  valRightDoor : ℚ
  wheelRotation : ℚ
  angle : ℚ
deriving DecidableEq, Repr

/-- One frame of the animation-state update at the top of `render()`:
time accumulates, hover and morph smooth toward their lights-driven
targets with factor 0.05, the door targets are overridden to 0 while
the lights are on before the 0.1 door smoothing, the wheel angle
accumulates 0.3 per frame while lights are on and snaps to 0 otherwise,
and the scene angle accumulates 0.005. -/
def frameAnim (lightsOn : Bool) (st : AnimState) : AnimState :=
  let targetY : ℚ := if lightsOn then 140 else 0
  let targetMorph : ℚ := if lightsOn then 1 else 0
  let tLeft : ℚ := if lightsOn then 0 else st.targetLeftDoor
  let tRight : ℚ := if lightsOn then 0 else st.targetRightDoor
  { time := st.time + 1/50
    hoverY := st.hoverY + (targetY - st.hoverY) * (1/20)
    morphVal := st.morphVal + (targetMorph - st.morphVal) * (1/20)
    targetLeftDoor := st.targetLeftDoor
    targetRightDoor := st.targetRightDoor
    valLeftDoor := st.valLeftDoor + (tLeft - st.valLeftDoor) * (1/10)
    valRightDoor := st.valRightDoor + (tRight - st.valRightDoor) * (1/10)
    wheelRotation := if lightsOn then st.wheelRotation + 3/10 else 0
    angle := st.angle + 1/200 }

/-- An entry of `renderList`; only the depth key `z` matters to the
sort, the rest is drawing payload. -/
structure RenderItem where
  x : ℚ
  y : ℚ
  z : ℚ
deriving DecidableEq, Repr

/-- `renderList.sort((a, b) => a.z - b.z)`: a stable sort by the
comparator, i.e. ascending in `z`. -/
def sortRender (l : List RenderItem) : List RenderItem :=
  List.insertionSort (fun a b => a.z ≤ b.z) l

/-- Screen-space depth of an item, as computed by the draw pass
(`depth = 1000 - z`; larger `z` projects nearer to the viewer). -/
def itemDepth (i : RenderItem) : ℚ := 1000 - i.z

/-- A per-part screen-space bounding box. -/
structure Bounds where
  minX : ℚ
  maxX : ℚ
  minY : ℚ
  maxY : ℚ
deriving DecidableEq, Repr

/-- The inverted-infinity sentinel `{minX: 10000, maxX: -10000, ...}`. -/
def sentinelBounds : Bounds := ⟨10000, -10000, 10000, -10000⟩

/-- The three tracked boxes of `boundsRef`. -/
structure BoundsState where
  leftDoor : Bounds
  rightDoor : Bounds
  car : Bounds
deriving DecidableEq, Repr

/-- Expand a box to include a projected screen coordinate. -/
def expand (b : Bounds) (x y : ℚ) : Bounds :=
  ⟨min b.minX x, max b.maxX x, min b.minY y, max b.maxY y⟩

/-- A projected point as it reaches the hit-test update: its part tag
and screen coordinates (depth-culled points never get here). -/
structure ProjPoint where
  part : Part
  sx : ℚ
  sy : ℚ

/-- The hit-test update for one projected point: a left-door point also
expands the left-door box, a right-door point the right-door box, and
EVERY point expands the general car box. -/
def accumPoint (bs : BoundsState) (p : ProjPoint) : BoundsState :=
  let bs1 :=
    if p.part = Part.door_left then
      { bs with leftDoor := expand bs.leftDoor p.sx p.sy }
    else if p.part = Part.door_right then
      { bs with rightDoor := expand bs.rightDoor p.sx p.sy }
    else bs
  { bs1 with car := expand bs1.car p.sx p.sy }

/-- The bounds accumulated over one frame from the projected points,
starting from the sentinel boxes. -/
def accumBounds (ps : List ProjPoint) : BoundsState :=
  ps.foldl accumPoint ⟨sentinelBounds, sentinelBounds, sentinelBounds⟩

/-- Box inclusion: every point of `a` (in the margin-0 containment
sense) is a point of `b`. -/
def boxLe (a b : Bounds) : Prop :=
  b.minX ≤ a.minX ∧ a.maxX ≤ b.maxX ∧ b.minY ≤ a.minY ∧ a.maxY ≤ b.maxY

instance : IsTotal RenderItem (fun a b => a.z ≤ b.z) :=
  ⟨fun a b => le_total a.z b.z⟩

instance : IsTrans RenderItem (fun a b => a.z ≤ b.z) :=
  ⟨fun _ _ _ hab hbc => le_trans hab hbc⟩

/-- Containment in a box expanded by margin `m`, as tested in
`handleClick`. -/
def InBox (b : Bounds) (m x y : ℚ) : Prop :=
  b.minX - m ≤ x ∧ x ≤ b.maxX + m ∧ b.minY - m ≤ y ∧ y ≤ b.maxY + m

instance (b : Bounds) (m x y : ℚ) : Decidable (InBox b m x y) := by
  unfold InBox; infer_instance

/-- The outcome of a click: the two door-open targets afterwards and
whether the engine one-shot sound fired. -/
structure ClickResult where
  targetLeftDoor : ℚ
  targetRightDoor : ℚ
  engineSound : Bool
deriving DecidableEq, Repr

/-- Embedding of `handleClick`: door boxes are tested expanded by a
20 px margin, first the left door then the right door; a door hit
toggles that door's target only when the lights are off; otherwise the
car box is tested WITHOUT margin and a hit plays the engine sound. -/
def handleClick (b : BoundsState) (lightsOn : Bool) (tL tR x y : ℚ) :
    ClickResult :=
  if InBox b.leftDoor 20 x y then
    ⟨if lightsOn then tL else if tL > 1/2 then 0 else 1, tR, false⟩
  else if InBox b.rightDoor 20 x y then
    ⟨tL, if lightsOn then tR else if tR > 1/2 then 0 else 1, false⟩
  else if InBox b.car 0 x y then
    ⟨tL, tR, true⟩
  else
    ⟨tL, tR, false⟩

end Scene

namespace Audio

theorem spb_pos : 0 < SECONDS_PER_BEAT := by
  norm_num [SECONDS_PER_BEAT, TEMPO]

theorem getD_dur_nonneg {s : List NoteEvent} (h : ∀ e ∈ s, 0 ≤ e.2) (i : ℕ) :
    0 ≤ (s.getD i (none, 0)).2 := by
  by_cases hi : i < s.length
  · rw [List.getD_eq_getElem s _ hi]
    exact h _ (List.getElem_mem hi)
  · rw [List.getD_eq_default s _ (le_of_not_lt hi)]

theorem getD_dur_ge (S : Score) {i : ℕ} (hi : i < S.events.length) :
    S.minDur ≤ (S.events.getD i (none, 0)).2 := by
  rw [List.getD_eq_getElem S.events _ hi]
  exact S.dur_ge _ (List.getElem_mem hi)

theorem schedStep_canon (s : List NoteEvent) (t0 : ℚ) (n : ℕ) :
    schedStep s (canonState s t0 n) =
      (canonState s t0 (n + 1), (canonNote s n, canonTime s t0 n)) := by
  simp only [schedStep, canonState, canonNote, Prod.mk.injEq, SchedState.mk.injEq]
  refine ⟨⟨?_, Nat.mod_add_mod n s.length 1⟩, trivial⟩
  simp only [canonTime, cumDur]
  ring

theorem drainFuel_canon (s : List NoteEvent) (t0 c : ℚ) :
    ∀ (fuel n : ℕ), ∃ k,
      drainFuel s c fuel (canonState s t0 n) =
        (canonState s t0 (n + k), canonTrace s t0 n k)
  | 0, n => ⟨0, rfl⟩
  | fuel + 1, n => by
    by_cases h : (canonState s t0 n).nextNoteTime < c + SCHEDULE_AHEAD_TIME
    · obtain ⟨k, hk⟩ := drainFuel_canon s t0 c fuel (n + 1)
      refine ⟨k + 1, ?_⟩
      simp only [drainFuel, if_pos h, schedStep_canon s t0 n, hk]
      rw [show n + 1 + k = n + (k + 1) by omega]
      rfl
    · exact ⟨0, by simp only [drainFuel, if_neg h]; rfl⟩

theorem canonTrace_append (s : List NoteEvent) (t0 : ℚ) :
    ∀ (a : ℕ) (n b : ℕ),
      canonTrace s t0 n (a + b) = canonTrace s t0 n a ++ canonTrace s t0 (n + a) b
  | 0, n, b => by simp [canonTrace]
  | a + 1, n, b => by
    rw [show a + 1 + b = (a + b) + 1 by omega]
    rw [canonTrace, canonTrace, canonTrace_append s t0 a (n + 1) b]
    simp [show n + 1 + a = n + (a + 1) by omega]

theorem runTicks_canon (S : Score) (t0 : ℚ) :
    ∀ (cs : List ℚ) (n : ℕ), ∃ N,
      runTicks S cs (canonState S.events t0 n) =
        (canonState S.events t0 (n + N), canonTrace S.events t0 n N)
  | [], n => ⟨0, rfl⟩
  | c :: cs, n => by
    obtain ⟨k, hk⟩ := drainFuel_canon S.events t0 c
      (fuelFor (SECONDS_PER_BEAT * S.minDur) c (canonState S.events t0 n).nextNoteTime) n
    obtain ⟨N, hN⟩ := runTicks_canon S t0 cs (n + k)
    refine ⟨k + N, ?_⟩
    simp only [runTicks, tick, hk, hN]
    rw [show n + k + N = n + (k + N) by omega,
      canonTrace_append S.events t0 k n N]

theorem startState_canon (s : List NoteEvent) (t : ℚ) :
    startState t = canonState s (t + 1/10) 0 := by
  simp only [startState, canonState, canonTime, cumDur, SchedState.mk.injEq]
  exact ⟨by ring, (Nat.zero_mod _).symm⟩

theorem canonTrace_eq_map (s : List NoteEvent) (t0 : ℚ) :
    ∀ (k n : ℕ),
      canonTrace s t0 n k =
        (List.range k).map (fun i => (canonNote s (n + i), canonTime s t0 (n + i)))
  | 0, n => rfl
  | k + 1, n => by
    rw [show k + 1 = k + 1 from rfl, canonTrace_append s t0 k n 1,
      canonTrace_eq_map s t0 k n, List.range_succ, List.map_append]
    simp [canonTrace]

theorem canonTime_lt (S : Score) (t0 : ℚ) (k : ℕ) :
    canonTime S.events t0 k < canonTime S.events t0 (k + 1) := by
  have hlen : 0 < S.events.length := List.length_pos.mpr S.ne
  have hdur : S.minDur ≤ (S.events.getD (k % S.events.length) (none, 0)).2 :=
    getD_dur_ge S (Nat.mod_lt _ hlen)
  have h0 : (0:ℚ) < (S.events.getD (k % S.events.length) (none, 0)).2 :=
    lt_of_lt_of_le S.minDur_pos hdur
  simp only [canonTime, cumDur, mul_add]
  linarith [mul_pos spb_pos h0]

theorem chain_canonTrace (S : Score) (t0 : ℚ) :
    ∀ (k n : ℕ),
      List.Chain' (fun a b : NoteEvent × ℚ => a.2 < b.2) (canonTrace S.events t0 n k)
  | 0, _ => List.chain'_nil
  | 1, n => by simp [canonTrace]
  | k + 2, n => by
    rw [canonTrace, canonTrace, List.chain'_cons]
    exact ⟨canonTime_lt S t0 n,
      by rw [← canonTrace]; exact chain_canonTrace S t0 (k + 1) (n + 1)⟩

theorem fuelFor_spec {d : ℚ} (hd : 0 < d) (c x : ℚ) :
    c + SCHEDULE_AHEAD_TIME - x ≤ (fuelFor d c x : ℚ) * d := by
  set q := c + SCHEDULE_AHEAD_TIME - x with hq
  rcases le_or_lt q 0 with h | h
  · exact h.trans (mul_nonneg (by positivity) hd.le)
  · have h1 : q / d ≤ (⌈q / d⌉ : ℚ) := Int.le_ceil _
    have h2 : (0:ℤ) ≤ ⌈q / d⌉ := Int.ceil_nonneg (div_pos h hd).le
    have h3 : ((fuelFor d c x : ℕ) : ℚ) = ((⌈q / d⌉ : ℤ) : ℚ) := by
      rw [fuelFor, ← hq]
      exact_mod_cast congrArg (fun z : ℤ => (z : ℚ)) (Int.toNat_of_nonneg h2)
    rw [h3]
    calc q = (q / d) * d := by field_simp
    _ ≤ (⌈q / d⌉ : ℚ) * d := by exact mul_le_mul_of_nonneg_right h1 hd.le

theorem drainFuel_complete (S : Score) (c : ℚ) :
    ∀ (fuel : ℕ) (st : SchedState), st.scoreIndex < S.events.length →
      c + SCHEDULE_AHEAD_TIME - st.nextNoteTime ≤
        (fuel : ℚ) * (SECONDS_PER_BEAT * S.minDur) →
      ¬ (drainFuel S.events c fuel st).1.nextNoteTime < c + SCHEDULE_AHEAD_TIME
  | 0, st, _, hb => by
    show ¬ st.nextNoteTime < c + SCHEDULE_AHEAD_TIME
    push_neg
    have : ((0:ℕ) : ℚ) * (SECONDS_PER_BEAT * S.minDur) = 0 := by push_cast; ring
    linarith [this ▸ hb]
  | fuel + 1, st, hidx, hb => by
    by_cases h : st.nextNoteTime < c + SCHEDULE_AHEAD_TIME
    · simp only [drainFuel, if_pos h]
      have hlen : 0 < S.events.length := List.length_pos.mpr S.ne
      have hidx2 : (schedStep S.events st).1.scoreIndex < S.events.length :=
        Nat.mod_lt _ hlen
      have hdur : S.minDur ≤ (S.events.getD st.scoreIndex (none, 0)).2 :=
        getD_dur_ge S hidx
      have hb2 : c + SCHEDULE_AHEAD_TIME - (schedStep S.events st).1.nextNoteTime ≤
          (fuel : ℚ) * (SECONDS_PER_BEAT * S.minDur) := by
        show c + SCHEDULE_AHEAD_TIME -
          (st.nextNoteTime + (S.events.getD st.scoreIndex (none, 0)).2 * SECONDS_PER_BEAT) ≤ _
        have hδ : SECONDS_PER_BEAT * S.minDur ≤
            (S.events.getD st.scoreIndex (none, 0)).2 * SECONDS_PER_BEAT := by
          rw [mul_comm]
          exact mul_le_mul_of_nonneg_right hdur spb_pos.le
        push_cast at hb ⊢
        nlinarith [hδ]
      exact drainFuel_complete S c fuel (schedStep S.events st).1 hidx2 hb2
    · simp only [drainFuel, if_neg h]
      exact h

theorem tick_complete (S : Score) (c : ℚ) (st : SchedState)
    (hidx : st.scoreIndex < S.events.length) :
    c + SCHEDULE_AHEAD_TIME ≤ (tick S c st).1.nextNoteTime := by
  have hd : (0:ℚ) < SECONDS_PER_BEAT * S.minDur := mul_pos spb_pos S.minDur_pos
  have := drainFuel_complete S c
    (fuelFor (SECONDS_PER_BEAT * S.minDur) c st.nextNoteTime) st hidx
    (by linarith [fuelFor_spec hd c st.nextNoteTime])
  rw [tick]
  exact le_of_not_lt this

theorem drainFuel_idx_lt (S : Score) (c : ℚ) :
    ∀ (fuel : ℕ) (st : SchedState), st.scoreIndex < S.events.length →
      (drainFuel S.events c fuel st).1.scoreIndex < S.events.length
  | 0, st, h => h
  | fuel + 1, st, h => by
    by_cases hg : st.nextNoteTime < c + SCHEDULE_AHEAD_TIME
    · simp only [drainFuel, if_pos hg]
      exact drainFuel_idx_lt S c fuel _ (Nat.mod_lt _ (List.length_pos.mpr S.ne))
    · simp only [drainFuel, if_neg hg]; exact h

theorem drainFuel_mono {s : List NoteEvent} (hs : ∀ e ∈ s, 0 ≤ e.2) (c : ℚ) :
    ∀ (fuel : ℕ) (st : SchedState),
      st.nextNoteTime ≤ (drainFuel s c fuel st).1.nextNoteTime ∧
      ∀ ev ∈ (drainFuel s c fuel st).2, st.nextNoteTime ≤ ev.2
  | 0, st => ⟨le_refl _, fun ev hev => nomatch hev⟩
  | fuel + 1, st => by
    by_cases hg : st.nextNoteTime < c + SCHEDULE_AHEAD_TIME
    · simp only [drainFuel, if_pos hg]
      have hstep : st.nextNoteTime ≤ (schedStep s st).1.nextNoteTime := by
        show st.nextNoteTime ≤ st.nextNoteTime + _ * SECONDS_PER_BEAT
        have := mul_nonneg (getD_dur_nonneg hs st.scoreIndex) spb_pos.le
        linarith
      obtain ⟨h1, h2⟩ := drainFuel_mono hs c fuel (schedStep s st).1
      refine ⟨hstep.trans h1, ?_⟩
      intro ev hev
      rcases List.mem_cons.mp hev with rfl | hev2
      · exact le_refl _
      · exact hstep.trans (h2 ev hev2)
    · simp only [drainFuel, if_neg hg]
      exact ⟨le_refl _, fun ev hev => nomatch hev⟩

theorem score_dur_nonneg (S : Score) : ∀ e ∈ S.events, 0 ≤ e.2 :=
  fun e he => S.minDur_pos.le.trans (S.dur_ge e he)

/-- Bundled per-tick facts: a full tick leaves the cursor at or beyond
the end of the window, keeps the index in range, and only schedules
events at or after the incoming cursor. -/
theorem tick_spec (S : Score) (c : ℚ) (st : SchedState)
    (hidx : st.scoreIndex < S.events.length) :
    c + SCHEDULE_AHEAD_TIME ≤ (tick S c st).1.nextNoteTime ∧
    (tick S c st).1.scoreIndex < S.events.length ∧
    ∀ ev ∈ (tick S c st).2, st.nextNoteTime ≤ ev.2 := by
  refine ⟨tick_complete S c st hidx, ?_, ?_⟩
  · rw [tick]; exact drainFuel_idx_lt S c _ st hidx
  · rw [tick]; exact (drainFuel_mono (score_dur_nonneg S) c _ st).2

theorem runTicksAnn_le (S : Score) :
    ∀ (cs : List ℚ) (st : SchedState) (prev : ℚ),
      List.Chain (fun a b => a ≤ b ∧ b ≤ a + LOOKAHEAD) prev cs →
      prev + SCHEDULE_AHEAD_TIME ≤ st.nextNoteTime →
      st.scoreIndex < S.events.length →
      ∀ x ∈ (runTicksAnn S cs st).2, x.1 ≤ x.2.2
  | [], _, _, _, _, _ => fun _ hx => nomatch hx
  | c :: cs, st, prev, hch, hcur, hidx => by
    rw [List.chain_cons] at hch
    obtain ⟨⟨hpc, hcp⟩, hch2⟩ := hch
    have hla : LOOKAHEAD = SCHEDULE_AHEAD_TIME := rfl
    have hc_le : c ≤ st.nextNoteTime := by rw [hla] at hcp; linarith
    obtain ⟨hcomplete, hidx2, hev⟩ := tick_spec S c st hidx
    intro x hx
    simp only [runTicksAnn] at hx
    rcases List.mem_append.mp hx with hx1 | hx2
    · obtain ⟨e, he, rfl⟩ := List.mem_map.mp hx1
      exact hc_le.trans (hev e he)
    · exact runTicksAnn_le S cs (tick S c st).1 c hch2 hcomplete hidx2 x hx2

/-- The immediate synchronous scheduler call made by a fresh start at
clock `c` schedules nothing (`c + 0.1 < c + 0.1` fails) and leaves the
fresh cursor untouched. -/
theorem tick_startState (S : Score) (c : ℚ) :
    tick S c (startState c) = (startState c, []) := by
  rw [tick]
  cases fuelFor (SECONDS_PER_BEAT * S.minDur) c (startState c).nextNoteTime with
  | zero => rfl
  | succ n =>
    simp only [drainFuel]
    rw [if_neg (by show ¬ c + 1/10 < c + SCHEDULE_AHEAD_TIME
                   rw [show SCHEDULE_AHEAD_TIME = 1/10 from rfl]
                   exact lt_irrefl _)]

/-- Whatever the tick clock, the first event a tick emits from a fresh
start state is the score's first note at the fresh cursor time. -/
theorem tick_head (S : Score) (c t : ℚ) :
    ∀ ev, ((tick S c (startState t)).2).head? = some ev →
      ev = (S.events.getD 0 (none, 0), t + 1/10) := by
  rw [startState_canon S.events t, tick]
  obtain ⟨k, hk⟩ := drainFuel_canon S.events (t + 1/10) c
    (fuelFor (SECONDS_PER_BEAT * S.minDur) c
      (canonState S.events (t + 1/10) 0).nextNoteTime) 0
  rw [hk]
  cases k with
  | zero => intro ev h; exact absurd h (by simp [canonTrace])
  | succ m =>
    intro ev h
    simp only [canonTrace, List.head?_cons, Option.some.injEq] at h
    rw [← h]
    refine Prod.ext ?_ ?_
    · show canonNote S.events 0 = S.events.getD 0 (none, 0)
      rw [canonNote, Nat.zero_mod]
    · show canonTime S.events (t + 1/10) 0 = t + 1/10
      rw [canonTime, cumDur]
      ring

/-- Both timer stops in sequence leave a state with both handles null
and the shared cursor untouched. -/
theorem stop_both (st : AudioState) (c0 c1 : ℚ) :
    (toggleDisneyMusic false c1 (toggleChristmasMusic false c0 st).1).1 =
      ⟨false, false, st.sched⟩ := by
  rcases st with ⟨m, cm, sch⟩
  cases m <;> cases cm <;> rfl

/-- **C1.** For every score, repeatedly ticking the scheduler after a
fresh start produces exactly the canonical trace for some prefix length
`N`: the `k`-th scheduled event (for every `k < N`, no reordering or
skipping) is the score entry at index `k mod length` and starts at the
initial cursor `t + 0.1` plus `SECONDS_PER_BEAT = 60/140` times the
cumulative duration of all prior notes; start times are strictly
increasing, and the index has advanced to `N mod length`. -/
theorem scheduler_trace_in_score_order (S : Score) (t : ℚ) (cs : List ℚ) :
    ∃ N : ℕ,
      (runTicks S cs (startState t)).2 =
        (List.range N).map (fun k =>
          (S.events.getD (k % S.events.length) (none, 0),
            (t + 1/10) + SECONDS_PER_BEAT * cumDur S.events k)) ∧
      List.Chain' (fun a b : NoteEvent × ℚ => a.2 < b.2)
        (runTicks S cs (startState t)).2 ∧
      (runTicks S cs (startState t)).1.scoreIndex = N % S.events.length ∧
      (runTicks S cs (startState t)).1.nextNoteTime =
        (t + 1/10) + SECONDS_PER_BEAT * cumDur S.events N := by
  rw [startState_canon S.events t]
  obtain ⟨N, hN⟩ := runTicks_canon S (t + 1/10) cs 0
  rw [hN]
  simp only [Nat.zero_add]
  refine ⟨N, ?_, ?_, rfl, rfl⟩
  · rw [canonTrace_eq_map S.events (t + 1/10) N 0]
    simp [canonNote, canonTime]
  · exact chain_canonTrace S (t + 1/10) N 0

/-- **C2.** At most one of the two schedulers is pending at any time:
starting either melody while the other is running is a no-op (state
unchanged, no events emitted), starting an already-running melody is
likewise a no-op, and the exclusivity invariant is preserved by both
toggles (in both directions) and by both timer ticks. -/
theorem scheduler_mutual_exclusion (c : ℚ) (st : AudioState) :
    (st.castleMusicScheduler = true → toggleChristmasMusic true c st = (st, [])) ∧
    (st.musicScheduler = true → toggleChristmasMusic true c st = (st, [])) ∧
    (st.musicScheduler = true → toggleDisneyMusic true c st = (st, [])) ∧
    (st.castleMusicScheduler = true → toggleDisneyMusic true c st = (st, [])) ∧
    (∀ b : Bool, Excl st → Excl (toggleChristmasMusic b c st).1) ∧
    (∀ b : Bool, Excl st → Excl (toggleDisneyMusic b c st).1) ∧
    (Excl st → Excl (tickChristmas c st).1) ∧
    (Excl st → Excl (tickDisney c st).1) := by
  rcases st with ⟨m, cm, sch⟩
  cases m <;> cases cm <;>
    refine ⟨?_, ?_, ?_, ?_, fun b h => ?_, fun b h => ?_, fun h => ?_, fun h => ?_⟩ <;>
    (try cases b) <;>
    simp_all [toggleChristmasMusic, toggleDisneyMusic, tickChristmas,
      tickDisney, Excl]

/-- **C7.** Stopping both schedulers and then starting one resets the
shared cursor to the current clock plus 0.1 s and the index to 0; the
synchronous start call emits nothing, and the first note a subsequent
tick schedules (whatever its clock) is the score's first note at
`c + 0.1` — playback restarts from the beginning for either melody. -/
theorem restart_resets_to_score_start (st : AudioState) (c0 c1 c : ℚ) :
    (toggleChristmasMusic true c
        (toggleDisneyMusic false c1 (toggleChristmasMusic false c0 st).1).1).1.sched =
      startState c ∧
    (toggleChristmasMusic true c
        (toggleDisneyMusic false c1 (toggleChristmasMusic false c0 st).1).1).1.musicScheduler =
      true ∧
    (toggleChristmasMusic true c
        (toggleDisneyMusic false c1 (toggleChristmasMusic false c0 st).1).1).2 = [] ∧
    (∀ c2 ev, ((tickChristmas c2 (toggleChristmasMusic true c
        (toggleDisneyMusic false c1 (toggleChristmasMusic false c0 st).1).1).1).2).head? =
          some ev → ev = ((some "E5", 1), c + 1/10)) ∧
    (toggleDisneyMusic true c
        (toggleDisneyMusic false c1 (toggleChristmasMusic false c0 st).1).1).1.sched =
      startState c ∧
    (∀ c2 ev, ((tickDisney c2 (toggleDisneyMusic true c
        (toggleDisneyMusic false c1 (toggleChristmasMusic false c0 st).1).1).1).2).head? =
          some ev → ev = ((some "C4", 1/4), c + 1/10)) := by
  rw [stop_both st c0 c1]
  have hC : toggleChristmasMusic true c (⟨false, false, st.sched⟩ : AudioState) =
      (⟨true, false, startState c⟩, []) := by
    have h1 : toggleChristmasMusic true c (⟨false, false, st.sched⟩ : AudioState) =
        ((⟨true, false, (tick JINGLE_SCORE c (startState c)).1⟩ : AudioState),
          (tick JINGLE_SCORE c (startState c)).2) := rfl
    rw [h1, tick_startState]
  have hD : toggleDisneyMusic true c (⟨false, false, st.sched⟩ : AudioState) =
      (⟨false, true, startState c⟩, []) := by
    have h1 : toggleDisneyMusic true c (⟨false, false, st.sched⟩ : AudioState) =
        ((⟨false, true, (tick DISNEY_SCORE c (startState c)).1⟩ : AudioState),
          (tick DISNEY_SCORE c (startState c)).2) := rfl
    rw [h1, tick_startState]
  rw [hC, hD]
  refine ⟨rfl, rfl, rfl, ?_, rfl, ?_⟩
  · intro c2 ev h
    have := tick_head JINGLE_SCORE c2 c ev ?_
    · rw [this]; rfl
    · simpa [tickChristmas] using h
  · intro c2 ev h
    have := tick_head DISNEY_SCORE c2 c ev ?_
    · rw [this]; rfl
    · simpa [tickDisney] using h

/-- **C8 (amended).** If every timer tick fires no later than its
nominal 0.1 s delay (and the clock is monotone), then every note is
handed to the synthesizer at or before its scheduled start time: the
tick clock never exceeds the event's start time. -/
theorem punctual_ticks_schedule_on_time (S : Score) (t : ℚ) (cs : List ℚ)
    (h : List.Chain (fun a b => a ≤ b ∧ b ≤ a + LOOKAHEAD) t cs) :
    List.Forall (fun x : ℚ × (NoteEvent × ℚ) => x.1 ≤ x.2.2)
      (runTicksAnn S cs (startState t)).2 := by
  rw [List.forall_iff_forall_mem]
  refine runTicksAnn_le S cs (startState t) t h ?_ ?_
  · show t + SCHEDULE_AHEAD_TIME ≤ t + 1/10
    rw [show SCHEDULE_AHEAD_TIME = 1/10 from rfl]
  · show 0 < S.events.length
    exact List.length_pos.mpr S.ne

theorem punctual_ticks_schedule_on_time_witness :
    List.Forall (fun x : ℚ × (NoteEvent × ℚ) => x.1 ≤ x.2.2)
      (runTicksAnn JINGLE_SCORE [0, 1/10] (startState 0)).2 :=
  punctual_ticks_schedule_on_time JINGLE_SCORE 0 [0, 1/10]
    (by norm_num [List.chain_cons, LOOKAHEAD])

/-- **C8 (counterexample).** The claimed jitter tolerance fails: start
fresh at clock 0 (cursor 0.1); the first timer tick, nominally due at
clock 0.1, fires late by exactly the lookahead margin, at clock
0.2 = 0 + LOOKAHEAD + LOOKAHEAD.  It hands the first note to the
synthesizer with start time 0.1, which is already in the past:
0.1 < 0.2.  Because the polling interval equals the lookahead window,
the design tolerates no lateness at all. -/
theorem late_tick_hands_note_after_due_time :
    (tick JINGLE_SCORE (1/5) (startState 0)).2 = [((some "E5", 1), (0:ℚ) + 1/10)] ∧
    ((0:ℚ) + 1/10 < 1/5) ∧ ((1/5 : ℚ) = 0 + LOOKAHEAD + LOOKAHEAD) := by
  have hf : fuelFor (SECONDS_PER_BEAT * JINGLE_SCORE.minDur) (1/5)
      ((startState (0:ℚ)).nextNoteTime) = 1 := by
    rw [fuelFor]
    have h14 : ((1:ℚ)/5 + SCHEDULE_AHEAD_TIME - (startState (0:ℚ)).nextNoteTime) /
        (SECONDS_PER_BEAT * JINGLE_SCORE.minDur) = 14/15 := by
      norm_num [SCHEDULE_AHEAD_TIME, SECONDS_PER_BEAT, TEMPO, startState, JINGLE_SCORE]
    rw [h14, show ⌈(14/15 : ℚ)⌉ = 1 by norm_num [Int.ceil_eq_iff]]
    rfl
  refine ⟨?_, by norm_num, by norm_num [LOOKAHEAD]⟩
  rw [tick, hf]
  simp only [drainFuel]
  rw [if_pos (by show (startState (0:ℚ)).nextNoteTime < 1/5 + SCHEDULE_AHEAD_TIME
                 norm_num [startState, SCHEDULE_AHEAD_TIME])]
  simp [schedStep, startState, JINGLE_SCORE, JINGLE_BELLS]

/-- **C10.** A rest event (`null` pitch) creates no oscillator in
`scheduleNote`, yet the scheduler step still advances the cursor by the
rest's duration times `SECONDS_PER_BEAT` and the index by one modulo
the score length, so subsequent notes keep their start times. -/
theorem rest_advances_cursor_silently (s : List NoteEvent) (st : SchedState)
    (d tm : ℚ) (ty : String) (h : s.getD st.scoreIndex (none, 0) = (none, d)) :
    scheduleNote none d tm ty = [] ∧
    scheduleNote (s.getD st.scoreIndex (none, 0)).1
      (s.getD st.scoreIndex (none, 0)).2 tm ty = [] ∧
    (schedStep s st).1.nextNoteTime = st.nextNoteTime + d * SECONDS_PER_BEAT ∧
    (schedStep s st).1.scoreIndex = (st.scoreIndex + 1) % s.length ∧
    (schedStep s st).2 = ((none, d), st.nextNoteTime) := by
  refine ⟨rfl, ?_, ?_, rfl, ?_⟩
  · rw [h]; rfl
  · show st.nextNoteTime + (s.getD st.scoreIndex (none, 0)).2 * SECONDS_PER_BEAT = _
    rw [h]
  · show (s.getD st.scoreIndex (none, 0), st.nextNoteTime) = _
    rw [h]

theorem rest_advances_cursor_silently_witness :
    scheduleNote none (1/2) 5 "orchestra" = [] ∧
    (schedStep DISNEY_THEME ⟨37/10, 7⟩).1.nextNoteTime =
      37/10 + (1/2) * SECONDS_PER_BEAT ∧
    (schedStep DISNEY_THEME ⟨37/10, 7⟩).1.scoreIndex = 8 % DISNEY_THEME.length := by
  have h := rest_advances_cursor_silently DISNEY_THEME ⟨37/10, 7⟩ (1/2) 5
    "orchestra" rfl
  exact ⟨h.1, h.2.2.1, h.2.2.2.1⟩

end Audio

namespace Audio

theorem scheduler_mutual_exclusion_witness :
    toggleChristmasMusic true 0 ⟨false, true, ⟨0, 0⟩⟩ =
      ((⟨false, true, ⟨0, 0⟩⟩ : AudioState), []) ∧
    Excl (toggleDisneyMusic true 0 (⟨false, true, ⟨0, 0⟩⟩ : AudioState)).1 := by
  have h := scheduler_mutual_exclusion 0 ⟨false, true, ⟨0, 0⟩⟩
  exact ⟨h.1 rfl, h.2.2.2.2.2.1 true (by simp [Excl])⟩

theorem restart_resets_to_score_start_witness :
    ((some "E5", (1:ℚ)), (0:ℚ) + 1/10) = ((some "E5", 1), (0:ℚ) + 1/10) := by
  have h := restart_resets_to_score_start ⟨true, false, ⟨5, 3⟩⟩ 0 0 0
  refine h.2.2.2.1 (1/8) _ ?_
  have hstop : (toggleDisneyMusic false 0 (toggleChristmasMusic false 0
      (⟨true, false, ⟨5, 3⟩⟩ : AudioState)).1).1 =
      (⟨false, false, ⟨5, 3⟩⟩ : AudioState) := rfl
  rw [hstop]
  have hstart : toggleChristmasMusic true 0 (⟨false, false, ⟨5, 3⟩⟩ : AudioState) =
      ((⟨true, false, (tick JINGLE_SCORE 0 (startState 0)).1⟩ : AudioState),
        (tick JINGLE_SCORE 0 (startState 0)).2) := rfl
  rw [hstart, tick_startState]
  have hf : fuelFor (SECONDS_PER_BEAT * JINGLE_SCORE.minDur) (1/8)
      ((startState (0:ℚ)).nextNoteTime) = 1 := by
    rw [fuelFor]
    have h712 : ((1:ℚ)/8 + SCHEDULE_AHEAD_TIME - (startState (0:ℚ)).nextNoteTime) /
        (SECONDS_PER_BEAT * JINGLE_SCORE.minDur) = 7/12 := by
      norm_num [SCHEDULE_AHEAD_TIME, SECONDS_PER_BEAT, TEMPO, startState, JINGLE_SCORE]
    rw [h712, show ⌈(7/12 : ℚ)⌉ = 1 by norm_num [Int.ceil_eq_iff]]
    rfl
  show ((tick JINGLE_SCORE (1/8) (startState 0)).2).head? = _
  rw [tick, hf]
  simp only [drainFuel]
  rw [if_pos (by show (startState (0:ℚ)).nextNoteTime < 1/8 + SCHEDULE_AHEAD_TIME
                 norm_num [startState, SCHEDULE_AHEAD_TIME])]
  simp [schedStep, startState, JINGLE_SCORE, JINGLE_BELLS]

end Audio

namespace Scene

/-- **C4.** While the lights are on, whatever the pending user door
toggles, the door blends smooth toward 0 (each frame multiplies them by
9/10, independently of the stored targets) and the wheel angle
accumulates a fixed 0.3 per frame; with the lights off the wheel angle
is set to 0 immediately, and the door blends track the stored user
targets. -/
theorem lights_force_doors_closed_and_wheel_spin (st : AnimState) (t1 t2 : ℚ) :
    (frameAnim true st).valLeftDoor = st.valLeftDoor * (9/10) ∧
    (frameAnim true st).valRightDoor = st.valRightDoor * (9/10) ∧
    (frameAnim true { st with targetLeftDoor := t1, targetRightDoor := t2 }).valLeftDoor =
      (frameAnim true st).valLeftDoor ∧
    (frameAnim true { st with targetLeftDoor := t1, targetRightDoor := t2 }).valRightDoor =
      (frameAnim true st).valRightDoor ∧
    (frameAnim true st).wheelRotation = st.wheelRotation + 3/10 ∧
    (frameAnim false st).wheelRotation = 0 ∧
    (frameAnim false st).valLeftDoor =
      st.valLeftDoor + (st.targetLeftDoor - st.valLeftDoor) * (1/10) ∧
    (frameAnim false st).valRightDoor =
      st.valRightDoor + (st.targetRightDoor - st.valRightDoor) * (1/10) := by
  refine ⟨?_, ?_, ?_, ?_, ?_, ?_, ?_, ?_⟩ <;>
    simp [frameAnim] <;> ring

/-- **C6.** Morph scaling touches only glass, balloon and string points,
as linear interpolation toward the fixed pivot `(0, 50, 0)`: at
`morph = 0` glass points are exactly their base position while
balloon/string points are culled (invisible, their scale having
collapsed to 0 toward the pivot); at `morph = 1` the inverse holds; any
other part is passed through unchanged for every morph value. -/
theorem morph_blend_endpoints (p : Vec3) (m : ℚ) :
    morphStage Part.glass 0 p = some p ∧
    morphStage Part.balloon 0 p = none ∧
    morphStage Part.string 0 p = none ∧
    morphStage Part.glass 1 p = none ∧
    morphStage Part.balloon 1 p = some p ∧
    morphStage Part.string 1 p = some p ∧
    (∀ q : Part, q ≠ Part.glass → q ≠ Part.balloon → q ≠ Part.string →
      morphStage q m p = some p) ∧
    ((1:ℚ)/20 ≤ 1 - m →
      morphStage Part.glass m p =
        some ⟨0 + (p.x - 0) * (1 - m), 50 + (p.y - 50) * (1 - m),
          0 + (p.z - 0) * (1 - m)⟩) ∧
    ((1:ℚ)/20 ≤ m →
      morphStage Part.balloon m p =
        some ⟨0 + (p.x - 0) * m, 50 + (p.y - 50) * m, 0 + (p.z - 0) * m⟩) ∧
    ((1:ℚ)/20 ≤ m →
      morphStage Part.string m p =
        some ⟨0 + (p.x - 0) * m, 50 + (p.y - 50) * m, 0 + (p.z - 0) * m⟩) := by
  obtain ⟨px, py, pz⟩ := p
  refine ⟨?_, ?_, ?_, ?_, ?_, ?_, ?_, ?_, ?_, ?_⟩
  · rw [morphStage, if_pos rfl, if_neg (by norm_num)]
    simp only [Option.some.injEq, Vec3.mk.injEq]
    refine ⟨by ring, by ring, by ring⟩
  · rw [morphStage, if_neg (by decide), if_pos (Or.inl rfl), if_pos (by norm_num)]
  · rw [morphStage, if_neg (by decide), if_pos (Or.inr rfl), if_pos (by norm_num)]
  · rw [morphStage, if_pos rfl, if_pos (by norm_num)]
  · rw [morphStage, if_neg (by decide), if_pos (Or.inl rfl), if_neg (by norm_num)]
    simp only [Option.some.injEq, Vec3.mk.injEq]
    refine ⟨by ring, by ring, by ring⟩
  · rw [morphStage, if_neg (by decide), if_pos (Or.inr rfl), if_neg (by norm_num)]
    simp only [Option.some.injEq, Vec3.mk.injEq]
    refine ⟨by ring, by ring, by ring⟩
  · intro q h1 h2 h3
    cases q <;> simp_all [morphStage]
  · intro h
    rw [morphStage, if_pos rfl, if_neg (by linarith)]
  · intro h
    rw [morphStage]
    rw [if_neg (by simp), if_pos (by simp), if_neg (by linarith)]
  · intro h
    rw [morphStage]
    rw [if_neg (by simp), if_pos (by simp), if_neg (by linarith)]

theorem morph_blend_endpoints_witness :
    morphStage Part.body (1/2) ⟨1, 2, 3⟩ = some ⟨1, 2, 3⟩ ∧
    morphStage Part.balloon (1/2) ⟨1, 2, 3⟩ =
      some ⟨0 + ((1:ℚ) - 0) * (1/2), 50 + ((2:ℚ) - 50) * (1/2),
        0 + ((3:ℚ) - 0) * (1/2)⟩ := by
  have h := morph_blend_endpoints ⟨1, 2, 3⟩ (1/2)
  exact ⟨h.2.2.2.2.2.2.1 Part.body (by simp) (by simp) (by simp),
    h.2.2.2.2.2.2.2.2.1 (by norm_num)⟩

end Scene

namespace Scene

/-- **C5 (amended).** The depth sort orders `renderList` ascending in
`z` — equivalently DESCENDING in depth `1000 - z` — which, larger `z`
projecting nearer to the viewer, is exactly back-to-front painter's
order; the sorted list is a permutation of the input. -/
theorem depth_sort_back_to_front (l : List RenderItem) :
    (sortRender l).Perm l ∧
    List.Sorted (fun a b : RenderItem => a.z ≤ b.z) (sortRender l) ∧
    List.Sorted (fun a b : RenderItem => itemDepth b ≤ itemDepth a) (sortRender l) := by
  refine ⟨List.perm_insertionSort _ l, List.sorted_insertionSort _ l, ?_⟩
  refine (List.sorted_insertionSort (fun a b : RenderItem => a.z ≤ b.z) l).imp ?_
  intro a b hab
  simp only [itemDepth]
  linarith

/-- **C5 (counterexample).** The claim inverts the direction: the code's
comparator `(a, b) => a.z - b.z` sorts ascending in `z`, which is
ASCENDING — not descending — and so, depth being `1000 - z`, descending
in depth rather than the claimed "ascending by depth / descending by
z": on two items with `z = 5` and `z = 0` the code puts `z = 0` first. -/
theorem depth_sort_not_ascending_depth :
    sortRender [⟨7, 8, 5⟩, ⟨1, 2, 0⟩] = [⟨1, 2, 0⟩, ⟨7, 8, 5⟩] ∧
    ¬ List.Sorted (fun a b : RenderItem => b.z ≤ a.z)
        (sortRender [⟨7, 8, 5⟩, ⟨1, 2, 0⟩]) ∧
    ¬ List.Sorted (fun a b : RenderItem => itemDepth a ≤ itemDepth b)
        (sortRender [⟨7, 8, 5⟩, ⟨1, 2, 0⟩]) := by
  have hs : sortRender [(⟨7, 8, 5⟩ : RenderItem), ⟨1, 2, 0⟩] =
      [⟨1, 2, 0⟩, ⟨7, 8, 5⟩] := by
    rw [sortRender, List.insertionSort, List.insertionSort, List.insertionSort,
      List.orderedInsert, List.orderedInsert]
    norm_num
  refine ⟨hs, ?_, ?_⟩
  · rw [hs]
    simp [List.sorted_cons]
  · rw [hs]
    simp [List.sorted_cons, itemDepth]

/-- `boxLe` is preserved when only the larger box grows. -/
theorem boxLe_expand_right (a b : Bounds) (h : boxLe a b) (x y : ℚ) :
    boxLe a (expand b x y) := by
  obtain ⟨h1, h2, h3, h4⟩ := h
  exact ⟨le_trans (min_le_left _ _) h1, le_trans h2 (le_max_left _ _),
    le_trans (min_le_left _ _) h3, le_trans h4 (le_max_left _ _)⟩

/-- `boxLe` is preserved when both boxes absorb the same point. -/
theorem boxLe_expand_both (a b : Bounds) (h : boxLe a b) (x y : ℚ) :
    boxLe (expand a x y) (expand b x y) := by
  obtain ⟨h1, h2, h3, h4⟩ := h
  exact ⟨min_le_min h1 (le_refl _), max_le_max h2 (le_refl _),
    min_le_min h3 (le_refl _), max_le_max h4 (le_refl _)⟩

/-- Points inside a `boxLe`-smaller box are inside the larger box. -/
theorem InBox_mono {a c : Bounds} (h : boxLe a c) {x y : ℚ}
    (hin : InBox a 0 x y) : InBox c 0 x y := by
  obtain ⟨h1, h2, h3, h4⟩ := h
  obtain ⟨g1, g2, g3, g4⟩ := hin
  exact ⟨by linarith, by linarith, by linarith, by linarith⟩

/-- One hit-test update keeps both door boxes inside the car box. -/
theorem accumPoint_boxLe (bs : BoundsState) (p : ProjPoint)
    (h1 : boxLe bs.leftDoor bs.car) (h2 : boxLe bs.rightDoor bs.car) :
    boxLe (accumPoint bs p).leftDoor (accumPoint bs p).car ∧
    boxLe (accumPoint bs p).rightDoor (accumPoint bs p).car := by
  simp only [accumPoint]
  split_ifs with hl hr
  · exact ⟨boxLe_expand_both _ _ h1 _ _, boxLe_expand_right _ _ h2 _ _⟩
  · exact ⟨boxLe_expand_right _ _ h1 _ _, boxLe_expand_both _ _ h2 _ _⟩
  · exact ⟨boxLe_expand_right _ _ h1 _ _, boxLe_expand_right _ _ h2 _ _⟩

theorem foldl_accumPoint_boxLe :
    ∀ (l : List ProjPoint) (bs : BoundsState),
      boxLe bs.leftDoor bs.car → boxLe bs.rightDoor bs.car →
      boxLe (l.foldl accumPoint bs).leftDoor (l.foldl accumPoint bs).car ∧
      boxLe (l.foldl accumPoint bs).rightDoor (l.foldl accumPoint bs).car
  | [], bs, h1, h2 => ⟨h1, h2⟩
  | p :: l, bs, h1, h2 => by
    obtain ⟨k1, k2⟩ := accumPoint_boxLe bs p h1 h2
    exact foldl_accumPoint_boxLe l (accumPoint bs p) k1 k2

/-- **C9.** Because every projected door point also expands the car
box, on every frame each door's accumulated box is contained in the car
box, and any click inside a door's unexpanded box also lies inside the
car silhouette box. -/
theorem door_boxes_inside_car_box (ps : List ProjPoint) :
    boxLe (accumBounds ps).leftDoor (accumBounds ps).car ∧
    boxLe (accumBounds ps).rightDoor (accumBounds ps).car ∧
    (∀ x y, InBox (accumBounds ps).leftDoor 0 x y →
      InBox (accumBounds ps).car 0 x y) ∧
    (∀ x y, InBox (accumBounds ps).rightDoor 0 x y →
      InBox (accumBounds ps).car 0 x y) := by
  have h := foldl_accumPoint_boxLe ps ⟨sentinelBounds, sentinelBounds, sentinelBounds⟩
    ⟨le_refl _, le_refl _, le_refl _, le_refl _⟩
    ⟨le_refl _, le_refl _, le_refl _, le_refl _⟩
  exact ⟨h.1, h.2, fun x y hin => InBox_mono h.1 hin,
    fun x y hin => InBox_mono h.2 hin⟩

theorem door_boxes_inside_car_box_witness :
    InBox (accumBounds [⟨Part.door_left, 50, 60⟩]).car 0 50 60 := by
  refine (door_boxes_inside_car_box [⟨Part.door_left, 50, 60⟩]).2.2.1 50 60 ?_
  simp only [accumBounds, List.foldl, accumPoint, sentinelBounds]
  norm_num [InBox, expand]

end Scene

namespace Scene

/-- **C3 (counterexample).** The car silhouette box is NOT expanded by
the 20 px margin before testing: with both door boxes empty (sentinel)
and the car box `[100,200] × [100,200]`, a click at `(215, 150)` lies
inside the margin-expanded car box, yet `handleClick` resolves to no
hit at all (no door toggle, no engine sound). -/
theorem car_box_not_margin_expanded :
    InBox ⟨100, 200, 100, 200⟩ 20 215 150 ∧
    ¬ InBox ⟨100, 200, 100, 200⟩ 0 215 150 ∧
    handleClick ⟨sentinelBounds, sentinelBounds, ⟨100, 200, 100, 200⟩⟩
      false 0 0 215 150 = ⟨0, 0, false⟩ := by
  refine ⟨by norm_num [InBox], by norm_num [InBox], ?_⟩
  rw [handleClick,
    if_neg (by norm_num [InBox, sentinelBounds]),
    if_neg (by norm_num [InBox, sentinelBounds]),
    if_neg (by norm_num [InBox])]

/-- **C3 (amended).** `handleClick` expands only the two DOOR boxes by
the 20 px margin; the car silhouette box is tested without margin.  The
test order is left door, right door, car, first match wins: a click in
the left door's expanded box never fires the engine sound and toggles
only the left target, and only when the lights are off; symmetrically
for the right door; when neither door matches, the targets are
untouched and the engine sound fires exactly when the click is in the
unexpanded car box.  The engine sound and a door toggle never occur
together, and with lights on no click changes a door target. -/
theorem click_resolution (b : BoundsState) (lightsOn : Bool) (tL tR x y : ℚ) :
    (InBox b.leftDoor 20 x y →
      handleClick b lightsOn tL tR x y =
        ⟨if lightsOn then tL else if tL > 1/2 then 0 else 1, tR, false⟩) ∧
    (¬ InBox b.leftDoor 20 x y → InBox b.rightDoor 20 x y →
      handleClick b lightsOn tL tR x y =
        ⟨tL, if lightsOn then tR else if tR > 1/2 then 0 else 1, false⟩) ∧
    (¬ InBox b.leftDoor 20 x y → ¬ InBox b.rightDoor 20 x y →
      (handleClick b lightsOn tL tR x y).targetLeftDoor = tL ∧
      (handleClick b lightsOn tL tR x y).targetRightDoor = tR ∧
      ((handleClick b lightsOn tL tR x y).engineSound = true ↔ InBox b.car 0 x y)) ∧
    ((handleClick b lightsOn tL tR x y).engineSound = true →
      (handleClick b lightsOn tL tR x y).targetLeftDoor = tL ∧
      (handleClick b lightsOn tL tR x y).targetRightDoor = tR) ∧
    (lightsOn = true →
      (handleClick b lightsOn tL tR x y).targetLeftDoor = tL ∧
      (handleClick b lightsOn tL tR x y).targetRightDoor = tR) := by
  unfold handleClick
  split_ifs with h1 h2 h3 <;>
    constructor <;>
    simp_all

theorem click_resolution_witness :
    handleClick ⟨⟨100, 200, 100, 200⟩, sentinelBounds, ⟨100, 200, 100, 200⟩⟩
      false 0 0 110 150 =
      ⟨if false then (0:ℚ) else if (0:ℚ) > 1/2 then 0 else 1, 0, false⟩ :=
  (click_resolution ⟨⟨100, 200, 100, 200⟩, sentinelBounds, ⟨100, 200, 100, 200⟩⟩
    false 0 0 110 150).1 (by norm_num [InBox])

end Scene
